import Mathlib

/-!
Verification of the transport / in-flight-query-tracking core of the
caffix/resolvers DNS stub-resolver client.

Two components are embedded here, following the Go source:

* the Exchange Table (`xchg.go`): a map from a correlation key
  (`transactionID:lowercased-name-without-trailing-dot`) to a pending
  request record, with `add`, `remove`, `removeExpired`, `removeAll`;
* the Connection Pool (the unnamed connections file): an ordered sequence
  of UDP sockets with a round-robin write cursor, `Next`, `Close`,
  `WriteMsg`, construction (`newConnections`) and periodic `rotate`.

The Go map is embedded as an association list `List (String × request)`;
map iteration order becomes list order (the claims proved below are about
which records are returned/kept, which is order-insensitive).  Go `time.Time`
timestamps are embedded as `Nat`, with `0` standing for the zero `time.Time`
(`IsZero`).  Socket creation (`net.ListenPacket`) is an effect of the OS;
it is embedded as an oracle: each creation attempt is given as an
`Option Nat` (`some sid` = success producing socket id `sid`, `none` =
failure), matching the two branches of `connections.Add`.
-/

namespace Resolve

/-- A pending request record (`request` in `xchg.go`).  `Ctx`, `Msg` and the
`Result` channel play no role in the table operations verified here; the
fields the operations read are kept.  `Timestamp : Nat` with `0` as the zero
`time.Time` (`Timestamp.IsZero` in Go becomes `Timestamp = 0`). -/
structure request where
  ID : Nat
  Timestamp : Nat
  Name : String
  Qtype : Nat
  deriving DecidableEq, Repr

/-- Go's `strings.ToLower`: per-character lowercasing, written over the
underlying character list (extensionally `String.toLower`, but in a form the
kernel can evaluate on literals). -/
def strToLower (s : String) : String := String.mk (s.data.map Char.toLower)

/-- Modelled from the spec: the repository's name normalizer `RemoveLastDot`
is not part of the two source files under verification (the spec lists it as
the external "Name normalizer": "a pure function stripping a single trailing
\".\" from a domain name").  A name whose last character is a dot loses that
one dot; any other name is unchanged. -/
def RemoveLastDot (name : String) : String :=
  if name.data.getLast? = some '.' then String.mk name.data.dropLast else name

/-- `xchgKey` from `xchg.go`: `fmt.Sprintf("%d:%s", id, strings.ToLower(RemoveLastDot(name)))`. -/
def xchgKey (id : Nat) (name : String) : String :=
  toString id ++ ":" ++ strToLower (RemoveLastDot name)

/-- The exchange table state: the Go `map[string]*request`, embedded as an
association list.  A table built through `add` has pairwise-distinct keys
(the Go map has unique keys by construction). -/
abbrev Xchgs := List (String × request)

/-- Lookup in the embedded map: `r.xchgs[key]` / the `found` test. -/
def mapLookup (t : Xchgs) (k : String) : Option request :=
  (List.find? (fun p => p.1 == k) t).map Prod.snd

/-- Removal of one key from the embedded map: Go `delete(r.xchgs, k)`. -/
def mapDelete (t : Xchgs) (k : String) : Xchgs :=
  List.filter (fun p => p.1 != k) t

/-- `xchgMgr.delete`: for each key, record the stored value and delete the
key from the map, returning the removed records.  Every call site in
`xchg.go` passes keys that are present in the map, so collecting the
present values (`Option.toList`) matches the Go slice of removed records. -/
def delete : Xchgs → List String → List request × Xchgs
  | t, [] => ([], t)
  | t, k :: ks =>
    let r := mapLookup t k
    let rest := delete (mapDelete t k) ks
    (r.toList ++ rest.1, rest.2)

/-- `xchgMgr.add`: derive the key; fail if the key is in use; otherwise
store the record.  `Except.error` carries the Go error string. -/
def add (t : Xchgs) (req : request) : Except String Xchgs :=
  let key := xchgKey req.ID req.Name
  match mapLookup t key with
  | some _ => .error ("key " ++ key ++ " is already in use")
  | none => .ok (t ++ [(key, req)])

/-- `xchgMgr.remove`: delete and return the record under the key derived
from `(id, name)`, or return `none` if absent (the table is unchanged). -/
def remove (t : Xchgs) (id : Nat) (name : String) : Option request × Xchgs :=
  let key := xchgKey id name
  match mapLookup t key with
  | some _ =>
    let d := delete t [key]
    (d.1.head?, d.2)
  | none => (none, t)

/-- The expiry test of `xchgMgr.removeExpired` on one record:
`!req.Timestamp.IsZero() && now.After(req.Timestamp.Add(QueryTimeout))`.
`now.After` is strict. -/
def expired (now timeout : Nat) (req : request) : Bool :=
  req.Timestamp != 0 && now > req.Timestamp + timeout

/-- `xchgMgr.removeExpired`: collect the keys of the expired records, then
delete and return them.  `now` and the process-wide `QueryTimeout` are
explicit arguments. -/
def removeExpired (t : Xchgs) (now timeout : Nat) : List request × Xchgs :=
  delete t ((List.filter (fun p => expired now timeout p.2) t).map Prod.fst)

/-- `xchgMgr.removeAll`: collect every key, then delete and return all
records. -/
def removeAll (t : Xchgs) : List request × Xchgs :=
  delete t (t.map Prod.fst)

/-! ### Basic facts about the embedded map operations -/

/-- The keys of the table are pairwise distinct — the defining property of
the Go map, maintained by `add` (the only way `xchg.go` inserts). -/
abbrev keysNodup (t : Xchgs) : Prop := (t.map Prod.fst).Nodup

theorem mapLookup_cons (p : String × request) (t : Xchgs) (k : String) :
    mapLookup (p :: t) k = if p.1 = k then some p.2 else mapLookup t k := by
  by_cases h : p.1 = k <;> simp [mapLookup, List.find?_cons, h]

theorem mapLookup_eq_none_iff (t : Xchgs) (k : String) :
    mapLookup t k = none ↔ ∀ p ∈ t, p.1 ≠ k := by
  simp [mapLookup, List.find?_eq_none]

theorem mapLookup_mem {t : Xchgs} {k : String} {v : request}
    (h : mapLookup t k = some v) : (k, v) ∈ t := by
  unfold mapLookup at h
  cases hf : List.find? (fun p => p.1 == k) t with
  | none => simp [hf] at h
  | some q =>
    have hq := List.find?_some hf
    have hm := List.mem_of_find?_eq_some hf
    simp only [beq_iff_eq] at hq
    simp only [hf, Option.map_some', Option.some.injEq] at h
    have : q = (k, v) := by
      obtain ⟨a, b⟩ := q
      simp_all
    rwa [this] at hm

theorem mem_mapLookup {t : Xchgs} {k : String} {v : request}
    (ht : keysNodup t) (h : (k, v) ∈ t) : mapLookup t k = some v := by
  induction t with
  | nil => cases h
  | cons p t ih =>
    have hnd := (List.nodup_cons.mp ht)
    rcases List.mem_cons.mp h with h1 | h1
    · rw [← h1, mapLookup_cons]; simp
    · have hk : p.1 ≠ k := by
        intro e
        exact hnd.1 (e ▸ List.mem_map_of_mem Prod.fst h1)
      rw [mapLookup_cons, if_neg hk]
      exact ih hnd.2 h1

theorem mapDelete_cons (p : String × request) (t : Xchgs) (k : String) :
    mapDelete (p :: t) k = if p.1 = k then mapDelete t k else p :: mapDelete t k := by
  by_cases h : p.1 = k <;> simp [mapDelete, List.filter_cons, h]

theorem mapDelete_eq_self {t : Xchgs} {k : String} (h : ∀ p ∈ t, p.1 ≠ k) :
    mapDelete t k = t := by
  apply List.filter_eq_self.mpr
  intro p hp
  simpa using h p hp

theorem mapLookup_mapDelete_self (t : Xchgs) (k : String) :
    mapLookup (mapDelete t k) k = none := by
  rw [mapLookup_eq_none_iff]
  intro p hp
  have := (List.mem_filter.mp hp).2
  simpa using this

/-- Deleting keys none of which is the head's key keeps the head in place. -/
theorem delete_cons_notmem (p : String × request) :
    ∀ (ks : List String) (t : Xchgs), (∀ k ∈ ks, k ≠ p.1) →
      delete (p :: t) ks = ((delete t ks).1, p :: (delete t ks).2)
  | [], _, _ => rfl
  | k :: ks, t, h => by
    have hk : k ≠ p.1 := h k (List.mem_cons_self k ks)
    have hlook : mapLookup (p :: t) k = mapLookup t k := by
      rw [mapLookup_cons, if_neg (fun e => hk e.symm)]
    have hdel : mapDelete (p :: t) k = p :: mapDelete t k := by
      rw [mapDelete_cons, if_neg (fun e => hk e.symm)]
    have ih := delete_cons_notmem p ks (mapDelete t k)
      (fun k' hk' => h k' (List.mem_cons_of_mem _ hk'))
    simp only [delete, hlook, hdel, ih]

/-- The central lemma: deleting exactly the keys of the entries satisfying
`P` returns the `P`-entries' records (in table order) and leaves the
table's `¬P`-entries. -/
theorem delete_filter_keys (P : String × request → Bool) :
    ∀ (t : Xchgs), keysNodup t →
      delete t ((t.filter P).map Prod.fst) =
        ((t.filter P).map Prod.snd, t.filter (fun p => !(P p)))
  | [], _ => rfl
  | p :: t, ht => by
    have hnd := List.nodup_cons.mp ht
    have hfresh : ∀ q ∈ t, q.1 ≠ p.1 := by
      intro q hq e
      exact hnd.1 (e ▸ List.mem_map_of_mem Prod.fst hq)
    have ih := delete_filter_keys P t hnd.2
    cases hP : P p with
    | true =>
      have hdel : mapDelete (p :: t) p.1 = t := by
        rw [mapDelete_cons, if_pos rfl]
        exact mapDelete_eq_self hfresh
      have hlook : mapLookup (p :: t) p.1 = some p.2 := by
        rw [mapLookup_cons, if_pos rfl]
      simp [List.filter_cons, hP, delete, hlook, hdel, ih]
    | false =>
      have hnot : ∀ k ∈ (List.filter P t).map Prod.fst, k ≠ p.1 := by
        intro k hk
        obtain ⟨q, hq, rfl⟩ := List.mem_map.mp hk
        exact hfresh q (List.mem_filter.mp hq).1
      simp only [List.filter_cons, hP] at hnot ⊢
      simp [delete_cons_notmem p _ t hnot, ih, List.filter_cons, hP]

/-! ### Claims about the Exchange Table -/

/-- Claim C1: for every table state and every record, `removeExpired` deletes
and returns exactly those records whose timestamp is non-zero and for which
the current time is strictly after timestamp + QueryTimeout; a record with a
zero timestamp is never returned, and a record returned once is no longer in
the table afterwards. -/
theorem removeExpired_spec (t : Xchgs) (now timeout : Nat) (ht : keysNodup t) :
    (removeExpired t now timeout).1 =
      (t.filter (fun p => expired now timeout p.2)).map Prod.snd ∧
    (removeExpired t now timeout).2 =
      t.filter (fun p => !(expired now timeout p.2)) ∧
    (∀ r ∈ (removeExpired t now timeout).1, r.Timestamp ≠ 0 ∧ now > r.Timestamp + timeout) ∧
    (∀ r ∈ (removeExpired t now timeout).1,
      ∀ p ∈ (removeExpired t now timeout).2, p.2 ≠ r) := by
  have h := delete_filter_keys (fun p => expired now timeout p.2) t ht
  unfold removeExpired
  rw [h]
  refine ⟨rfl, rfl, ?_, ?_⟩
  · intro r hr
    obtain ⟨p, hp, rfl⟩ := List.mem_map.mp hr
    have he := (List.mem_filter.mp hp).2
    unfold expired at he
    simpa using he
  · intro r hr p hp e
    obtain ⟨q, hq, rfl⟩ := List.mem_map.mp hr
    have h1 := (List.mem_filter.mp hp).2
    have h2 := (List.mem_filter.mp hq).2
    rw [Bool.not_eq_true'] at h1
    have h1' : expired now timeout p.2 = false := h1
    have h2' : expired now timeout q.2 = true := h2
    rw [e, h2'] at h1'
    cases h1'

/-- Witness for C1: a three-record table at `now = 20`, `QueryTimeout = 10`:
the zero-timestamp record and the fresh record stay, the stale one is
returned and removed. -/
theorem removeExpired_spec_witness :
    keysNodup [("1:a", (⟨1, 0, "a", 0⟩ : request)), ("2:b", ⟨2, 5, "b", 0⟩),
      ("3:c", ⟨3, 100, "c", 0⟩)] ∧
    (removeExpired [("1:a", (⟨1, 0, "a", 0⟩ : request)), ("2:b", ⟨2, 5, "b", 0⟩),
      ("3:c", ⟨3, 100, "c", 0⟩)] 20 10).1 = [⟨2, 5, "b", 0⟩] ∧
    (removeExpired [("1:a", (⟨1, 0, "a", 0⟩ : request)), ("2:b", ⟨2, 5, "b", 0⟩),
      ("3:c", ⟨3, 100, "c", 0⟩)] 20 10).2 =
      [("1:a", ⟨1, 0, "a", 0⟩), ("3:c", ⟨3, 100, "c", 0⟩)] := by
  have h := removeExpired_spec [("1:a", (⟨1, 0, "a", 0⟩ : request)),
    ("2:b", ⟨2, 5, "b", 0⟩), ("3:c", ⟨3, 100, "c", 0⟩)] 20 10 (by decide)
  exact ⟨by decide, h.1.trans (by decide), h.2.1.trans (by decide)⟩

/-- Claim C9: `removeAll` returns exactly the K pending records and leaves
the table empty, regardless of each record's timestamp. -/
theorem removeAll_spec (t : Xchgs) (ht : keysNodup t) :
    (removeAll t).1 = t.map Prod.snd ∧
    (removeAll t).1.length = t.length ∧
    (removeAll t).2 = [] := by
  have h := delete_filter_keys (fun _ => true) t ht
  simp only [List.filter_true, Bool.not_true, List.filter_false] at h
  unfold removeAll
  rw [h]
  exact ⟨rfl, by simp, rfl⟩

/-- Witness for C9: a two-record table (one zero timestamp, one stale) is
fully drained. -/
theorem removeAll_spec_witness :
    keysNodup [("4:x", (⟨4, 0, "x", 0⟩ : request)), ("6:y", ⟨6, 999, "y", 0⟩)] ∧
    (removeAll [("4:x", (⟨4, 0, "x", 0⟩ : request)), ("6:y", ⟨6, 999, "y", 0⟩)]).1 =
      [⟨4, 0, "x", 0⟩, ⟨6, 999, "y", 0⟩] ∧
    (removeAll [("4:x", (⟨4, 0, "x", 0⟩ : request)), ("6:y", ⟨6, 999, "y", 0⟩)]).2 = [] := by
  have h := removeAll_spec [("4:x", (⟨4, 0, "x", 0⟩ : request)),
    ("6:y", ⟨6, 999, "y", 0⟩)] (by decide)
  exact ⟨by decide, h.1.trans (by decide), h.2.2⟩

theorem mapLookup_append_single (t : Xchgs) (k : String) (v : request)
    (hfresh : mapLookup t k = none) :
    mapLookup (t ++ [(k, v)]) k = some v := by
  have hf0 : List.find? (fun p => p.1 == k) t = none :=
    Option.map_eq_none'.mp hfresh
  unfold mapLookup
  rw [List.find?_append, hf0]
  simp

/-- Claim C2: `add` succeeds when the derived key is fresh; a second `add`
with a pair deriving the same key fails with the "key already in use" error,
and the table still holds exactly the first record under that key. -/
theorem add_duplicate_spec (t : Xchgs) (req req2 : request)
    (hfresh : mapLookup t (xchgKey req.ID req.Name) = none)
    (hsame : xchgKey req2.ID req2.Name = xchgKey req.ID req.Name) :
    add t req = .ok (t ++ [(xchgKey req.ID req.Name, req)]) ∧
    add (t ++ [(xchgKey req.ID req.Name, req)]) req2 =
      .error ("key " ++ xchgKey req.ID req.Name ++ " is already in use") ∧
    mapLookup (t ++ [(xchgKey req.ID req.Name, req)]) (xchgKey req.ID req.Name) =
      some req := by
  have hl := mapLookup_append_single t (xchgKey req.ID req.Name) req hfresh
  refine ⟨?_, ?_, hl⟩
  · simp [add, hfresh]
  · simp [add, hsame, hl]

/-- Witness for C2: two records with the same transaction ID and names that
normalize to the same key; the second insertion is rejected. -/
theorem add_duplicate_spec_witness :
    mapLookup [] (xchgKey 7 "Example.ORG") = none ∧
    xchgKey 7 "example.org." = xchgKey 7 "Example.ORG" ∧
    add [] (⟨7, 0, "Example.ORG", 0⟩ : request) =
      .ok [(xchgKey 7 "Example.ORG", ⟨7, 0, "Example.ORG", 0⟩)] ∧
    add [(xchgKey 7 "Example.ORG", (⟨7, 0, "Example.ORG", 0⟩ : request))]
        (⟨7, 3, "example.org.", 0⟩ : request) =
      .error ("key " ++ xchgKey 7 "Example.ORG" ++ " is already in use") ∧
    mapLookup [(xchgKey 7 "Example.ORG", (⟨7, 0, "Example.ORG", 0⟩ : request))]
      (xchgKey 7 "Example.ORG") = some ⟨7, 0, "Example.ORG", 0⟩ := by
  have h := add_duplicate_spec [] (⟨7, 0, "Example.ORG", 0⟩ : request)
    (⟨7, 3, "example.org.", 0⟩ : request) rfl (by decide)
  exact ⟨rfl, by decide, h.1, h.2.1, h.2.2⟩

/-- Claim C3: `remove` on a stored (ID, name) key deletes the record and
returns exactly it; a second `remove` with the same key returns `none` and
leaves the table as it was, as does `remove` on any absent key. -/
theorem remove_spec (t : Xchgs) (id : Nat) (name : String) (req : request)
    (hfound : mapLookup t (xchgKey id name) = some req) :
    remove t id name = (some req, mapDelete t (xchgKey id name)) ∧
    remove (mapDelete t (xchgKey id name)) id name =
      (none, mapDelete t (xchgKey id name)) ∧
    (∀ s : Xchgs, mapLookup s (xchgKey id name) = none → remove s id name = (none, s)) := by
  refine ⟨?_, ?_, ?_⟩
  · simp [remove, hfound, delete]
  · simp [remove, mapLookup_mapDelete_self]
  · intro s hs
    simp [remove, hs]

/-- Witness for C3: a singleton table; `remove` returns the record, then
`remove` again returns `none`. -/
theorem remove_spec_witness :
    mapLookup [("5:x", (⟨5, 2, "x", 0⟩ : request))] (xchgKey 5 "x") = some ⟨5, 2, "x", 0⟩ ∧
    remove [("5:x", (⟨5, 2, "x", 0⟩ : request))] 5 "x" = (some ⟨5, 2, "x", 0⟩, []) ∧
    remove ([] : Xchgs) 5 "x" = (none, []) := by
  have h := remove_spec [("5:x", (⟨5, 2, "x", 0⟩ : request))] 5 "x" ⟨5, 2, "x", 0⟩ (by decide)
  refine ⟨by decide, h.1.trans (by decide), ?_⟩
  have h2 := h.2.2 [] rfl
  exact h2

/-- Claim C8: names with the same lowercased, trailing-dot-stripped form
derive the same correlation key for every transaction ID, so a record added
under (ID, name) is found and returned by `remove` under (ID, name'). -/
theorem xchgKey_normalized_spec (id : Nat) (n1 n2 : String) (t : Xchgs) (req : request)
    (h : strToLower (RemoveLastDot n1) = strToLower (RemoveLastDot n2))
    (hid : req.ID = id) (hn : req.Name = n1)
    (hfresh : mapLookup t (xchgKey id n1) = none) :
    xchgKey id n1 = xchgKey id n2 ∧
    add t req = .ok (t ++ [(xchgKey id n1, req)]) ∧
    remove (t ++ [(xchgKey id n1, req)]) id n2 = (some req, t) := by
  have hkey : xchgKey id n1 = xchgKey id n2 := by
    unfold xchgKey
    rw [h]
  have hl : mapLookup (t ++ [(xchgKey id n1, req)]) (xchgKey id n2) = some req := by
    rw [← hkey]
    exact mapLookup_append_single t (xchgKey id n1) req hfresh
  have hdel : mapDelete (t ++ [(xchgKey id n1, req)]) (xchgKey id n2) = t := by
    rw [← hkey]
    unfold mapDelete
    rw [List.filter_append]
    have h1 : List.filter (fun p => p.1 != xchgKey id n1) t = t := by
      apply List.filter_eq_self.mpr
      intro p hp
      have := (mapLookup_eq_none_iff t (xchgKey id n1)).mp hfresh p hp
      simpa using this
    simp [h1]
  refine ⟨hkey, ?_, ?_⟩
  · rw [← hid, ← hn] at hfresh ⊢
    simp [add, hfresh]
  · simp [remove, hl, delete, hdel]

/-- Witness for C8: the names "Sub.Example.COM." and "sub.example.com"
differ only in letter case and one trailing dot; a record registered under
the first is retrieved by `remove` under the second. -/
theorem xchgKey_normalized_spec_witness :
    strToLower (RemoveLastDot "Sub.Example.COM.") = strToLower (RemoveLastDot "sub.example.com") ∧
    xchgKey 9 "Sub.Example.COM." = xchgKey 9 "sub.example.com" ∧
    add [] (⟨9, 4, "Sub.Example.COM.", 1⟩ : request) =
      .ok [(xchgKey 9 "Sub.Example.COM.", ⟨9, 4, "Sub.Example.COM.", 1⟩)] ∧
    remove [(xchgKey 9 "Sub.Example.COM.", (⟨9, 4, "Sub.Example.COM.", 1⟩ : request))]
      9 "sub.example.com" = (some ⟨9, 4, "Sub.Example.COM.", 1⟩, []) := by
  have h := xchgKey_normalized_spec 9 "Sub.Example.COM." "sub.example.com" []
    (⟨9, 4, "Sub.Example.COM.", 1⟩ : request) (by decide) rfl rfl rfl
  exact ⟨by decide, h.1, h.2.1, h.2.2⟩

/-! ## Connection Pool

The `connections` component (the unnamed source file).  The underlying OS
sockets, the response queue and the read loops live outside the pool state;
what the pool operations observe of them is passed in as explicit oracle
arguments: each socket-creation attempt (`net.ListenPacket` inside
`connections.Add`) is an `Option Nat` — `some sid` for success, producing
the socket identified by `sid`, `none` for an error. -/

/-- One Socket Handle (`connection` in the source): the identity of the
bound UDP endpoint plus its cancellation channel, `done = true` once
`close(c.done)` has fired (after which its read loop closes the socket). -/
structure connection where
  sockId : Nat
  done : Bool
  deriving DecidableEq, Repr

/-- The pool state (`connections` in the source).  `conns = none` embeds the
Go nil slice — `Close` distinguishes nil from the non-nil empty slice that
`rotate` installs — and `done` the pool-wide cancellation channel. -/
structure connections where
  done : Bool
  conns : Option (List connection)
  nextWrite : Nat
  cpus : Nat
  deriving DecidableEq, Repr

/-- `connections.Add` given the creation outcome: on success the new socket
(with a fresh cancellation channel) is appended to the sequence (a Go
`append` on a nil slice yields a non-nil slice); on error nothing is
appended.  The returned `Bool` is `true` exactly when Go returns a non-nil
`err`. -/
def Add (st : connections) (res : Option Nat) : connections × Bool :=
  match res with
  | some sid =>
    ({ st with conns := some ((st.conns.getD []) ++ [⟨sid, false⟩]) }, false)
  | none => (st, true)

/-- `connections.Close`: a no-op when the sequence is already nil; otherwise
it fires the pool-wide channel and every current socket's channel and sets
the sequence to nil.  The second component lists the sockets whose
cancellation just fired. -/
def Close (st : connections) : connections × List connection :=
  match st.conns with
  | none => (st, [])
  | some l =>
    ({ st with done := true, conns := none }, l.map fun c => { c with done := true })

/-- What running `newConnections` can do.  `ok st` is a normal return of
the pool `st`.  `deadlock st` embeds the construction failure path of the
source: `newConnections` acquires the pool mutex and holds it (the unlock
is deferred to function return) when a failed `Add` makes it call
`conns.Close()`, and `Close` immediately re-acquires the same non-reentrant
`sync.Mutex` from the same goroutine — so the call blocks forever.  `st` is
the pool state frozen at the moment `Close` blocks: the sockets created so
far are still in the sequence with their cancellation channels unfired, the
pool-wide channel is unfired, and neither a pool nor a nil return ever
reaches the caller. -/
inductive buildOutcome where
  | ok (st : connections)
  | deadlock (st : connections)
  deriving DecidableEq, Repr

/-- The construction loop of `newConnections`: one `Add` per processing
unit; the first failure takes the `conns.Close()` path, which self-locks as
described at `buildOutcome.deadlock` — before `Close` fires anything.  One
outcome is consumed per iteration, so the loop bound `cpus` of the source
corresponds to `outcomes.length = cpus` in the theorems below. -/
def newConnsLoop : connections → List (Option Nat) → buildOutcome
  | st, [] => .ok st
  | st, o :: rest =>
    let r := Add st o
    if r.2 then .deadlock r.1 else newConnsLoop r.1 rest

/-- `newConnections`: the zero value of the Go struct (nil sequence, cursor
0, unfired channels) run through the construction loop. -/
def newConnections (cpus : Nat) (outcomes : List (Option Nat)) : buildOutcome :=
  newConnsLoop { done := false, conns := none, nextWrite := 0, cpus := cpus } outcomes

/-- The replacement loop of `rotate`: `cpus` further `Add` calls whose
errors are discarded (`_ = r.Add()` in the source), so a failed creation
simply appends nothing. -/
def rotateLoop : connections → List (Option Nat) → connections
  | st, [] => st
  | st, o :: rest => rotateLoop (Add st o).1 rest

/-- `connections.rotate`: every current socket is scheduled to have its
cancellation fire after the 10-second grace period (second component,
already marked fired — the delay only matters to the read loops, which are
outside the pool state); the sequence is immediately reset to the non-nil
empty slice and `cpus` fresh creations are attempted.  The write cursor is
not touched. -/
def rotate (st : connections) (outcomes : List (Option Nat)) :
    connections × List connection :=
  let old := st.conns.getD []
  (rotateLoop { st with conns := some [] } outcomes,
   old.map fun c => { c with done := true })

/-- `connections.Next`: a nil or empty sequence gives no socket; otherwise
the socket at the cursor is returned and the cursor advances modulo the
length.  The source evaluates `r.conns[cur]`, which panics when
`cur ≥ len(r.conns)`; the embedding makes that access checked — `l[cur]?` is
`none` exactly where Go panics (see the out-of-bounds theorem below). -/
def Next (st : connections) : Option connection × connections :=
  match st.conns with
  | none => (none, st)
  | some l =>
    if l.length = 0 then (none, st)
    else (l[st.nextWrite]?, { st with nextWrite := (st.nextWrite + 1) % l.length })

/-- `connections.WriteMsg` with its effects as oracle arguments: `packed` is
`some n` when `msg.Pack()` yields `n` bytes (`none` = packing error), and
`written` is `some m` when the socket write reports `m` bytes written
(`none` = write error; consulted only when a socket was obtained).  Failure
order follows the source: packing, then socket availability, then the
write, then the partial-write check. -/
def WriteMsg (st : connections) (packed : Option Nat) (written : Option Nat) :
    Except String connections :=
  match packed with
  | none => .error "failed to pack the message"
  | some outLen =>
    match Next st with
    | (none, _) => .error "failed to obtain a connection"
    | (some _, st') =>
      match written with
      | none => .error "failed to write the message"
      | some n =>
        if n < outLen then
          .error ("only wrote " ++ toString n ++ " bytes of the " ++
            toString outLen ++ " byte message")
        else .ok st'

/-! ### Facts about the pool operations -/

theorem close_conns_none (st : connections) : (Close st).1.conns = none := by
  cases h : st.conns <;> simp [Close, h]

theorem close_of_conns_none {st : connections} (h : st.conns = none) :
    Close st = (st, []) := by
  simp [Close, h]

/-- Claim C6: after the first `Close` on an open pool, every subsequent
`Next` returns no socket and every subsequent `WriteMsg` fails; a second
`Close` on the already-closed pool is a no-op that changes nothing and
fires nothing. -/
theorem close_spec (st : connections) :
    (Close st).1.conns = none ∧
    Next (Close st).1 = (none, (Close st).1) ∧
    (∀ packed written, ∃ e, WriteMsg (Close st).1 packed written = .error e) ∧
    Close (Close st).1 = ((Close st).1, []) := by
  have h1 := close_conns_none st
  have h2 : Next (Close st).1 = (none, (Close st).1) := by
    simp [Next, h1]
  refine ⟨h1, h2, ?_, ?_⟩
  · intro packed written
    cases packed with
    | none => exact ⟨_, rfl⟩
    | some n =>
      exact ⟨"failed to obtain a connection", by simp [WriteMsg, h2]⟩
  · exact close_of_conns_none h1

/-- A failed `newConnsLoop` run blocks inside `Close` with the sockets
created before the failing attempt (the successful prefix of the outcomes)
still appended to the starting state, and no channel fired by the loop. -/
theorem newConnsLoop_deadlock : ∀ (outs : List (Option Nat)) (st stD : connections),
    newConnsLoop st outs = .deadlock stD →
    stD.conns.getD [] = (st.conns.getD []) ++
      ((outs.takeWhile Option.isSome).filterMap id).map
        (fun sid => (⟨sid, false⟩ : connection)) ∧
    stD.done = st.done
  | [], st, stD, h => by simp [newConnsLoop] at h
  | none :: rest, st, stD, h => by
    simp only [newConnsLoop, Add, if_pos, buildOutcome.deadlock.injEq] at h
    subst h
    simp [List.takeWhile_cons]
  | some sid :: rest, st, stD, h => by
    simp only [newConnsLoop, Add, if_neg] at h
    have ih := newConnsLoop_deadlock rest _ stD h
    simp only [Option.getD_some] at ih
    refine ⟨?_, ih.2⟩
    rw [ih.1]
    simp [List.takeWhile_cons]

/-- A creation failure anywhere in the outcome list sends the construction
loop into the deadlocking `Close` call. -/
theorem newConnsLoop_deadlock_of_mem : ∀ (outs : List (Option Nat)) (st : connections),
    none ∈ outs → ∃ stD, newConnsLoop st outs = .deadlock stD
  | [], _, h => absurd h (List.not_mem_nil _)
  | none :: _, st, _ => ⟨st, by simp [newConnsLoop, Add]⟩
  | some sid :: rest, st, h => by
    have hr : none ∈ rest := by simpa using h
    obtain ⟨stD, hf⟩ := newConnsLoop_deadlock_of_mem rest (Add st (some sid)).1 hr
    refine ⟨stD, ?_⟩
    simp only [newConnsLoop, Add]
    simpa [Add] using hf

/-- Claim C7 fails on the code: when one of the N socket creations during
construction fails, `newConnections` calls `conns.Close()` while it still
holds the pool mutex, and `Close` re-acquires that same non-reentrant mutex
— the goroutine self-deadlocks.  Construction neither returns a pool nor a
nil failure, and no created socket's cancellation channel (nor the
pool-wide one) ever fires: the sockets created so far leak with their read
loops running, instead of being closed as the claim states. -/
theorem newConnections_failure_deadlock (cpus : Nat) (outcomes : List (Option Nat))
    (_hlen : outcomes.length = cpus) (hfail : none ∈ outcomes) :
    ∃ st, newConnections cpus outcomes = .deadlock st ∧
      st.conns.getD [] = ((outcomes.takeWhile Option.isSome).filterMap id).map
        (fun sid => (⟨sid, false⟩ : connection)) ∧
      (∀ c ∈ st.conns.getD [], c.done = false) ∧
      st.done = false ∧
      (∀ st', newConnections cpus outcomes ≠ .ok st') := by
  obtain ⟨stD, hf⟩ := newConnsLoop_deadlock_of_mem outcomes _ hfail
  have hchar := newConnsLoop_deadlock outcomes _ stD hf
  refine ⟨stD, hf, by simpa using hchar.1, ?_, by simpa using hchar.2, ?_⟩
  · intro c hc
    rw [hchar.1] at hc
    simp only [Option.getD_none, List.nil_append] at hc
    obtain ⟨sid, _, rfl⟩ := List.mem_map.mp hc
    rfl
  · intro st' he
    rw [show newConnections cpus outcomes = newConnsLoop
      { done := false, conns := none, nextWrite := 0, cpus := cpus } outcomes from rfl,
      hf] at he
    cases he

/-- Witness for the C7 finding: of three creation attempts the third
fails; the loop deadlocks with both created sockets unfired and no pool
returned. -/
theorem newConnections_failure_deadlock_witness :
    ([some 4, some 5, none] : List (Option Nat)).length = 3 ∧
    (none ∈ ([some 4, some 5, none] : List (Option Nat))) ∧
    (∃ st, newConnections 3 [some 4, some 5, none] = .deadlock st ∧
      (∀ c ∈ st.conns.getD [], c.done = false) ∧ st.done = false) ∧
    newConnections 3 [some 4, some 5, none] =
      .deadlock (⟨false, some [⟨4, false⟩, ⟨5, false⟩], 0, 3⟩ : connections) := by
  obtain ⟨st, hst, _, hdone, hpool, _⟩ :=
    newConnections_failure_deadlock 3 [some 4, some 5, none] rfl (by decide)
  exact ⟨rfl, by decide, ⟨st, hst, hdone, hpool⟩, rfl⟩

/-- The replacement loop appends one fresh socket per successful creation,
in order, and touches nothing else. -/
theorem rotateLoop_spec : ∀ (outs : List (Option Nat)) (st : connections)
    (l : List connection), st.conns = some l →
    rotateLoop st outs = { st with conns := some (l ++ (outs.filterMap id).map (fun sid => (⟨sid, false⟩ : connection))) }
  | [], st, l, h => by
    simp only [rotateLoop, List.filterMap_nil, List.map_nil, List.append_nil, ← h]
  | none :: rest, st, l, h => by
    simp only [rotateLoop, Add]
    simpa using rotateLoop_spec rest st l h
  | some sid :: rest, st, l, h => by
    have ih := rotateLoop_spec rest
      { st with conns := some (l ++ [⟨sid, false⟩]) } (l ++ [⟨sid, false⟩]) rfl
    simp only [rotateLoop, Add, h, Option.getD_some]
    rw [ih]
    simp

theorem countP_isSome_add_isNone (outs : List (Option Nat)) :
    outs.countP Option.isSome + outs.countP Option.isNone = outs.length := by
  induction outs with
  | nil => rfl
  | cons o rest ih => cases o <;> simp [List.countP_cons] <;> omega

theorem length_filterMap_id (outs : List (Option Nat)) :
    (outs.filterMap id).length = outs.countP Option.isSome := by
  induction outs with
  | nil => rfl
  | cons o rest ih => cases o <;> simp [List.countP_cons, ih]

/-- A successful `newConnsLoop` run appends exactly one socket per outcome
(every outcome must have succeeded), keeping the target size field. -/
theorem newConnsLoop_ok_conns : ∀ (outs : List (Option Nat)) (st st' : connections),
    newConnsLoop st outs = .ok st' →
    st'.cpus = st.cpus ∧
    (st'.conns.getD []).length = (st.conns.getD []).length + outs.length ∧
    (outs = [] → st' = st) ∧ (outs ≠ [] → st'.conns.isSome = true)
  | [], st, st', h => by
    simp only [newConnsLoop, buildOutcome.ok.injEq] at h
    subst h
    exact ⟨rfl, by simp, fun _ => rfl, fun hne => absurd rfl hne⟩
  | none :: rest, st, st', h => by
    simp [newConnsLoop, Add] at h
  | some sid :: rest, st, st', h => by
    simp only [newConnsLoop, Add, Bool.false_eq_true, if_false] at h
    have ih := newConnsLoop_ok_conns rest _ st' h
    refine ⟨ih.1, ?_, ?_, ?_⟩
    · rw [ih.2.1]
      simp
      omega
    · intro hne
      cases hne
    · intro _
      cases rest with
      | nil =>
        rw [ih.2.2.1 rfl]
        rfl
      | cons o os => exact ih.2.2.2 (by simp)

/-- Counterexample to claim C4 as stated: a pool built with target size 1,
hit by a rotation in which the single socket creation fails, is still open
(its sequence is the non-nil empty slice) yet its sequence length is 0, not
the target size 1. -/
theorem pool_size_claim_counterexample :
    newConnections 1 [some 0] = .ok (⟨false, some [⟨0, false⟩], 0, 1⟩ : connections) ∧
    (rotate (⟨false, some [⟨0, false⟩], 0, 1⟩ : connections) [none]).1 =
      (⟨false, some [], 0, 1⟩ : connections) ∧
    (some ([] : List connection) ≠ none) ∧
    ([] : List connection).length ≠ 1 := by
  exact ⟨rfl, rfl, by simp, by simp⟩

/-- Claim C4 as amended: immediately after a successful initial
construction the sequence length equals the target size N; immediately
after a rotation it equals the number of socket creations that succeeded
during that rotation — N minus the failures — so it equals N exactly when
every creation succeeds. -/
theorem pool_size_spec (st : connections) (outcomes : List (Option Nat))
    (hlen : outcomes.length = st.cpus)
    (cpus0 : Nat) (outs0 : List (Option Nat)) (st0 : connections)
    (hlen0 : outs0.length = cpus0) (hpos : 0 < cpus0)
    (hok : newConnections cpus0 outs0 = .ok st0) :
    (∃ l, (rotate st outcomes).1.conns = some l ∧
      l.length = outcomes.countP Option.isSome ∧
      st.cpus - l.length = outcomes.countP Option.isNone ∧
      ((∀ o ∈ outcomes, o.isSome) → l.length = st.cpus)) ∧
    (∃ l0, st0.conns = some l0 ∧ l0.length = cpus0) := by
  constructor
  · have h := rotateLoop_spec outcomes { st with conns := some [] } [] rfl
    refine ⟨(outcomes.filterMap id).map (fun sid => (⟨sid, false⟩ : connection)),
      ?_, ?_, ?_, ?_⟩
    · simp [rotate, h]
    · simp [length_filterMap_id]
    · have := countP_isSome_add_isNone outcomes
      simp only [List.length_map, length_filterMap_id]
      omega
    · intro hall
      have : outcomes.countP Option.isSome = outcomes.length :=
        List.countP_eq_length.mpr (fun o ho => hall o ho)
      simp [length_filterMap_id, this, hlen]
  · have h := newConnsLoop_ok_conns outs0 _ st0 hok
    have hne : outs0 ≠ [] := by
      intro e
      rw [e] at hlen0
      simp at hlen0
      omega
    obtain ⟨l0, hl0⟩ := Option.isSome_iff_exists.mp (h.2.2.2 hne)
    refine ⟨l0, hl0, ?_⟩
    have hln := h.2.1
    rw [hl0] at hln
    simp at hln
    omega

/-- Witness for the amended C4: target size 2; construction with two
successes yields length 2; a rotation with one success and one failure
leaves length 1 = 2 - 1. -/
theorem pool_size_spec_witness :
    ([some 2, none] : List (Option Nat)).length =
      (⟨false, some [⟨0, false⟩, ⟨1, false⟩], 0, 2⟩ : connections).cpus ∧
    ([some 0, some 1] : List (Option Nat)).length = 2 ∧ 0 < 2 ∧
    newConnections 2 [some 0, some 1] =
      .ok (⟨false, some [⟨0, false⟩, ⟨1, false⟩], 0, 2⟩ : connections) ∧
    (rotate (⟨false, some [⟨0, false⟩, ⟨1, false⟩], 0, 2⟩ : connections)
      [some 2, none]).1.conns = some [⟨2, false⟩] ∧
    ([(⟨2, false⟩ : connection)].length =
      ([some 2, none] : List (Option Nat)).countP Option.isSome) := by
  have h := pool_size_spec (⟨false, some [⟨0, false⟩, ⟨1, false⟩], 0, 2⟩ : connections)
    [some 2, none] rfl 2 [some 0, some 1]
    (⟨false, some [⟨0, false⟩, ⟨1, false⟩], 0, 2⟩ : connections) rfl (by decide) rfl
  obtain ⟨⟨l, hl, hcount, _, _⟩, _⟩ := h
  refine ⟨rfl, rfl, by decide, rfl, ?_, by decide⟩
  have hrot : (rotate (⟨false, some [⟨0, false⟩, ⟨1, false⟩], 0, 2⟩ : connections)
      [some 2, none]).1.conns = some [⟨2, false⟩] := rfl
  exact hrot

/-- Iterated `Next`: the results of `n` consecutive calls, and the pool
state they leave behind. -/
def nextCalls (st : connections) : Nat → List (Option connection) × connections
  | 0 => ([], st)
  | n + 1 =>
    let r := Next st
    let rest := nextCalls r.2 n
    (r.1 :: rest.1, rest.2)

theorem next_step (st : connections) (l : List connection) (hc : st.conns = some l)
    (hlt : st.nextWrite < l.length) :
    Next st = (l[st.nextWrite]?, { st with nextWrite := (st.nextWrite + 1) % l.length }) := by
  have hne : ¬ l.length = 0 := by omega
  simp [Next, hc, hne]

/-- With an in-bounds cursor `c` over a fixed sequence `l`, the `k`-th of
`m` consecutive `Next` calls hits index `(c + k) % l.length` and the cursor
ends at `(c + m) % l.length`. -/
theorem nextCalls_spec (l : List connection) :
    ∀ (m : Nat) (st : connections), st.conns = some l → st.nextWrite < l.length →
      (nextCalls st m).1 =
        (List.range m).map (fun k => l[(st.nextWrite + k) % l.length]?) ∧
      (nextCalls st m).2 = { st with nextWrite := (st.nextWrite + m) % l.length }
  | 0, st, _, hlt => by
    refine ⟨by simp [nextCalls], ?_⟩
    simp only [nextCalls, Nat.add_zero, Nat.mod_eq_of_lt hlt]
  | m + 1, st, hc, hlt => by
    have hpos : 0 < l.length := Nat.lt_of_le_of_lt (Nat.zero_le _) hlt
    have hstep := next_step st l hc hlt
    have hlt1 : (st.nextWrite + 1) % l.length < l.length := Nat.mod_lt _ hpos
    have ih := nextCalls_spec l m { st with nextWrite := (st.nextWrite + 1) % l.length }
      hc hlt1
    have hcons : nextCalls st (m + 1) =
        ((Next st).1 :: (nextCalls (Next st).2 m).1, (nextCalls (Next st).2 m).2) := rfl
    rw [hcons, hstep]
    constructor
    · simp only [ih.1, List.range_succ_eq_map, List.map_cons, List.map_map]
      congr 1
      · rw [Nat.add_zero, Nat.mod_eq_of_lt hlt]
      · apply List.map_congr_left
        intro k _
        have e : st.nextWrite + 1 + k = st.nextWrite + (k + 1) := by omega
        simp only [Function.comp_apply, Nat.mod_add_mod, Nat.succ_eq_add_one, e]
    · have e : st.nextWrite + 1 + m = st.nextWrite + (m + 1) := by omega
      simp only [ih.2, Nat.mod_add_mod, e]

/-- The indices visited by a full double round, `(c + k) % N` for
`k < 2 * N`, list the elements of `l ++ l` rotated by `c`. -/
theorem range_double_round (l : List connection) (c : Nat) (hc : c < l.length) :
    (List.range (2 * l.length)).map (fun k => l[(c + k) % l.length]?) =
      ((l ++ l).map some).rotate c := by
  have hpos : 0 < l.length := Nat.lt_of_le_of_lt (Nat.zero_le _) hc
  have hdvd : l.length ∣ 2 * l.length := dvd_mul_left l.length 2
  apply List.ext_getElem?
  intro n
  by_cases hn : n < 2 * l.length
  · have hlhs : ((List.range (2 * l.length)).map
        (fun k => l[(c + k) % l.length]?))[n]? = some (l[(c + n) % l.length]?) := by
      rw [List.getElem?_map, List.getElem?_range hn]
      rfl
    have hlen2 : ((l ++ l).map some).length = 2 * l.length := by
      simp
      omega
    have hrhs : (((l ++ l).map some).rotate c)[n]? =
        ((l ++ l)[(n + c) % (2 * l.length)]?).map some := by
      rw [List.getElem?_rotate (by omega : n < ((l ++ l).map some).length)]
      rw [hlen2, List.getElem?_map]
    have happ : (l ++ l)[(n + c) % (2 * l.length)]? = l[(n + c) % l.length]? := by
      set j := (n + c) % (2 * l.length) with hj
      have hj2 : j < 2 * l.length := Nat.mod_lt _ (by omega)
      have hjm : j % l.length = (n + c) % l.length := by
        rw [hj, Nat.mod_mod_of_dvd _ hdvd]
      by_cases hjl : j < l.length
      · rw [List.getElem?_append_left hjl, ← hjm, Nat.mod_eq_of_lt hjl]
      · have hle : l.length ≤ j := Nat.le_of_not_lt hjl
        rw [List.getElem?_append_right hle, ← hjm]
        have : j % l.length = j - l.length := by
          rw [Nat.mod_eq_sub_mod hle, Nat.mod_eq_of_lt (by omega)]
        rw [this]
    have hin : (n + c) % l.length < l.length := Nat.mod_lt _ hpos
    rw [hlhs, hrhs, happ, Nat.add_comm c n]
    cases hx : l[(n + c) % l.length]? with
    | none =>
      have := List.getElem?_eq_none_iff.mp hx
      omega
    | some v => rfl
  · have h1 : ((List.range (2 * l.length)).map
        (fun k => l[(c + k) % l.length]?))[n]? = none := by
      apply List.getElem?_eq_none
      simp
      omega
    have h2 : (((l ++ l).map some).rotate c)[n]? = none := by
      apply List.getElem?_eq_none
      simp
      omega
    rw [h1, h2]

/-- Claim C5: on a pool holding a fixed sequence of `N ≥ 1` distinct
sockets with an in-bounds cursor, `2 * N` consecutive `Next` calls return
the socket at index `(initial cursor + k) % N` on the `k`-th call — hence
each socket exactly twice, in round-robin order — and each call advances
the cursor by one modulo `N`. -/
theorem next_round_robin_spec (st : connections) (l : List connection)
    (hc : st.conns = some l) (hlt : st.nextWrite < l.length) (hnd : l.Nodup) :
    (nextCalls st (2 * l.length)).1 =
      (List.range (2 * l.length)).map (fun k => l[(st.nextWrite + k) % l.length]?) ∧
    (∀ x ∈ l, (nextCalls st (2 * l.length)).1.countP (fun r => r == some x) = 2) ∧
    (∀ m, (nextCalls st m).2 =
      { st with nextWrite := (st.nextWrite + m) % l.length }) := by
  have hmain := (nextCalls_spec l (2 * l.length) st hc hlt).1
  refine ⟨hmain, ?_, fun m => (nextCalls_spec l m st hc hlt).2⟩
  intro x hx
  rw [hmain, range_double_round l st.nextWrite hlt]
  rw [(List.rotate_perm ((l ++ l).map some) st.nextWrite).countP_eq]
  rw [List.countP_map, List.countP_append]
  have hcnt : List.countP ((fun r : Option connection => r == some x) ∘ some) l =
      List.count x l := rfl
  rw [hcnt, List.count_eq_one_of_mem hnd hx]

/-- Witness for C5: a two-socket pool with the cursor at 1; four `Next`
calls return sockets 1, 0, 1, 0 — each exactly twice — and the cursor
returns to 1. -/
theorem next_round_robin_spec_witness :
    ((⟨false, some [⟨0, false⟩, ⟨1, false⟩], 1, 2⟩ : connections).conns =
      some [⟨0, false⟩, ⟨1, false⟩]) ∧
    (1 < 2 ∧ ([(⟨0, false⟩ : connection), ⟨1, false⟩]).Nodup) ∧
    (nextCalls (⟨false, some [⟨0, false⟩, ⟨1, false⟩], 1, 2⟩ : connections) 4).1 =
      [some ⟨1, false⟩, some ⟨0, false⟩, some ⟨1, false⟩, some ⟨0, false⟩] ∧
    (nextCalls (⟨false, some [⟨0, false⟩, ⟨1, false⟩], 1, 2⟩ : connections) 4).1.countP
      (fun r => r == some ⟨0, false⟩) = 2 ∧
    (nextCalls (⟨false, some [⟨0, false⟩, ⟨1, false⟩], 1, 2⟩ : connections) 4).1.countP
      (fun r => r == some ⟨1, false⟩) = 2 := by
  have h := next_round_robin_spec (⟨false, some [⟨0, false⟩, ⟨1, false⟩], 1, 2⟩ : connections)
    [⟨0, false⟩, ⟨1, false⟩] rfl (by decide) (by decide)
  refine ⟨rfl, ⟨by decide, by decide⟩, h.1.trans (by decide), ?_, ?_⟩
  · exact h.2.1 ⟨0, false⟩ (by decide)
  · exact h.2.1 ⟨1, false⟩ (by decide)

/-- Claim C10 fails on the code: a reachable pool state (construction with
3 sockets, two `Next` calls moving the cursor to 2, then a rotation in
which only one of the three creations succeeds) has a non-empty sequence of
length 1 with the cursor still at 2.  `connections.Next` then evaluates
`r.conns[2]` on the 1-element slice — in Go an index-out-of-range panic
(the embedding's checked access `l[2]?` is `none` despite the sequence
being non-empty). -/
theorem next_cursor_out_of_bounds :
    newConnections 3 [some 0, some 1, some 2] =
      .ok (⟨false, some [⟨0, false⟩, ⟨1, false⟩, ⟨2, false⟩], 0, 3⟩ : connections) ∧
    (Next (Next (⟨false, some [⟨0, false⟩, ⟨1, false⟩, ⟨2, false⟩], 0, 3⟩ :
      connections)).2).2 =
      (⟨false, some [⟨0, false⟩, ⟨1, false⟩, ⟨2, false⟩], 2, 3⟩ : connections) ∧
    (rotate (⟨false, some [⟨0, false⟩, ⟨1, false⟩, ⟨2, false⟩], 2, 3⟩ : connections)
      [some 3, none, none]).1 = (⟨false, some [⟨3, false⟩], 2, 3⟩ : connections) ∧
    ((⟨false, some [⟨3, false⟩], 2, 3⟩ : connections).conns.getD []).length = 1 ∧
    (⟨false, some [⟨3, false⟩], 2, 3⟩ : connections).nextWrite = 2 ∧
    (Next (⟨false, some [⟨3, false⟩], 2, 3⟩ : connections)).1 = none := by
  exact ⟨rfl, rfl, rfl, rfl, rfl, rfl⟩

end Resolve
